import Mathlib

/-!
Shallow embedding of `src/messages.rs` from the phnx-candefs repository:
the Phoenix CAN message catalog and its frame codec.

Modelling conventions:
* Bytes are `Nat` values (< 256 where it matters, stated as hypotheses).
* `f32` fields are modelled by their 32-bit IEEE-754 bit pattern as a `Nat`
  (< 2^32); `to_le_bytes` / `from_le_bytes` act on the bit pattern, which is
  exactly what the Rust code's byte-level serialization does.
* Rust computations that can panic (slice indexing out of bounds, `unwrap` on
  `None`) are modelled by the `panicked` outcome of `RResult`; `Result::Err`
  of `ConvertErr::InvalidFrame` is the `invalidFrame` outcome.
* The external frame capability (`embedded_hal::can`) is modelled by
  `CanId`, `RawFrame`, `ExtendedId.new` (checks the 29-bit range) and
  `Frame.new` (checks the 8-byte payload limit).
-/

namespace PhnxCandefs

/-- Outcome of a Rust computation returning `Result<T, ConvertErr>`:
success, `Err(ConvertErr::InvalidFrame)`, or a runtime panic. -/
inductive RResult (α : Type) where
  | ok : α → RResult α
  | invalidFrame : RResult α
  | panicked : RResult α
  deriving DecidableEq, Repr

/-- CAN frame identifier: 11-bit standard or 29-bit extended, carrying the raw value. -/
inductive CanId where
  | Standard : Nat → CanId
  | Extended : Nat → CanId
  deriving DecidableEq, Repr

/-- A raw CAN frame: identifier plus payload bytes. -/
structure RawFrame where
  id : CanId
  data : List Nat
  deriving DecidableEq, Repr

namespace ExtendedId

/-- Largest 29-bit extended identifier (embedded-hal `ExtendedId::MAX.as_raw()`). -/
def MAX_RAW : Nat := 0x1FFFFFFF

/-- Model of `embedded_hal::can::ExtendedId::new`: `Some` iff the raw value
fits in 29 bits. -/
def new (raw : Nat) : Option Nat :=
  if raw ≤ MAX_RAW then some raw else none

end ExtendedId

namespace Frame

/-- Model of the `embedded_hal::can::Frame::new` constructor: rejects payloads
longer than the 8-byte CAN data limit. -/
def new (id : CanId) (data : List Nat) : Option RawFrame :=
  if data.length ≤ 8 then some ⟨id, data⟩ else none

end Frame

/-- Little-endian bytes of a `u16` (`u16::to_le_bytes`). -/
def u16_to_le_bytes (n : Nat) : List Nat :=
  [n % 2 ^ 8, n / 2 ^ 8 % 2 ^ 8]

/-- Little-endian bytes of a `u32` bit pattern (`u32::to_le_bytes`, and
`f32::to_le_bytes` acting on the float's bit pattern). -/
def u32_to_le_bytes (n : Nat) : List Nat :=
  [n % 2 ^ 8, n / 2 ^ 8 % 2 ^ 8, n / 2 ^ 16 % 2 ^ 8, n / 2 ^ 24 % 2 ^ 8]

/-- `u16::from_le_bytes` on two bytes. -/
def u16_from_le_bytes (b0 b1 : Nat) : Nat :=
  b0 + 2 ^ 8 * b1

/-- `u32::from_le_bytes` (and `f32::from_le_bytes` as a bit pattern) on four bytes. -/
def u32_from_le_bytes (b0 b1 b2 b3 : Nat) : Nat :=
  b0 + 2 ^ 8 * b1 + 2 ^ 16 * b2 + 2 ^ 24 * b3

/-- Rust slice indexing `data[i]`: panics (`none`) when out of bounds. -/
def sliceIndex (data : List Nat) (i : Nat) : Option Nat :=
  if h : i < data.length then some (data.get ⟨i, h⟩) else none

/-- Rust range indexing `data[lo..hi]`: panics (`none`) unless `lo ≤ hi ≤ data.len()`. -/
def sliceRange (data : List Nat) (lo hi : Nat) : Option (List Nat) :=
  if lo ≤ hi ∧ hi ≤ data.length then some ((data.drop lo).take (hi - lo)) else none

/-- `<&[u8] as TryInto<[u8; 2]>>::try_into` followed by `u16::from_le_bytes`:
succeeds only on a slice of length exactly 2. -/
def u16_from_le_slice (s : List Nat) : Option Nat :=
  match s with
  | [b0, b1] => some (u16_from_le_bytes b0 b1)
  | _ => none

/-- `<&[u8] as TryInto<[u8; 4]>>::try_into` followed by `f32::from_le_bytes`
(bit pattern): succeeds only on a slice of length exactly 4. -/
def f32_from_le_slice (s : List Nat) : Option Nat :=
  match s with
  | [b0, b1, b2, b3] => some (u32_from_le_bytes b0 b1 b2 b3)
  | _ => none

namespace IscFrame

/-- Shared body of every `into_frame` implementation:
`T::new(ExtendedId::new(ID).unwrap(), data).ok_or(ConvertErr::InvalidFrame)`.
The `unwrap` on a failed `ExtendedId::new` is a panic. -/
def frame_with (id : Nat) (data : List Nat) : RResult RawFrame :=
  match ExtendedId.new id with
  | none => .panicked
  | some eid =>
    match Frame.new (.Extended eid) data with
    | none => .invalidFrame
    | some f => .ok f

/-- The `IscFrame` trait's default `into_frame`: an empty payload. -/
def default_into_frame (id : Nat) : RResult RawFrame :=
  frame_with id []

end IscFrame

/-- Message struct `AutonDisable` (no fields). -/
structure AutonDisable where
  deriving DecidableEq, Repr

/-- `AutonDisable::ID`. -/
def AutonDisable.ID : Nat := 0x0000000

/-- `AutonDisable` uses the trait's default `into_frame` (empty payload). -/
def AutonDisable.into_frame (_ : AutonDisable) : RResult RawFrame :=
  IscFrame.default_into_frame AutonDisable.ID

/-- Message struct `SetBrake` with its `percent: u8` field. -/
structure SetBrake where
  percent : Nat
  deriving DecidableEq, Repr

/-- `SetBrake::ID`. -/
def SetBrake.ID : Nat := 0x0000001

/-- `SetBrake::into_frame`: 1-byte payload `[self.percent]`. -/
def SetBrake.into_frame (s : SetBrake) : RResult RawFrame :=
  IscFrame.frame_with SetBrake.ID [s.percent]

/-- Message struct `LockBrake` (no fields). -/
structure LockBrake where
  deriving DecidableEq, Repr

/-- `LockBrake::ID`. -/
def LockBrake.ID : Nat := 0x0000002

/-- `LockBrake` uses the trait's default `into_frame` (empty payload). -/
def LockBrake.into_frame (_ : LockBrake) : RResult RawFrame :=
  IscFrame.default_into_frame LockBrake.ID

/-- Message struct `UnlockBrake` (no fields). -/
structure UnlockBrake where
  deriving DecidableEq, Repr

/-- `UnlockBrake::ID`. -/
def UnlockBrake.ID : Nat := 0x0000003

/-- `UnlockBrake` uses the trait's default `into_frame` (empty payload). -/
def UnlockBrake.into_frame (_ : UnlockBrake) : RResult RawFrame :=
  IscFrame.default_into_frame UnlockBrake.ID

/-- Message struct `SetAngle`; the `angle: f32` field is modelled by its
32-bit IEEE-754 bit pattern. -/
structure SetAngle where
  angle : Nat
  deriving DecidableEq, Repr

/-- `SetAngle::ID`. -/
def SetAngle.ID : Nat := 0x0000004

/-- `SetAngle::into_frame`: payload `self.angle.to_le_bytes()` (4 bytes). -/
def SetAngle.into_frame (s : SetAngle) : RResult RawFrame :=
  IscFrame.frame_with SetAngle.ID (u32_to_le_bytes s.angle)

/-- Message struct `GetAngle`; the `angle: f32` field is modelled by its
32-bit IEEE-754 bit pattern. -/
structure GetAngle where
  angle : Nat
  deriving DecidableEq, Repr

/-- `GetAngle::ID`. -/
def GetAngle.ID : Nat := 0x0000005

/-- `GetAngle::into_frame`: payload `self.angle.to_le_bytes()` (4 bytes). -/
def GetAngle.into_frame (g : GetAngle) : RResult RawFrame :=
  IscFrame.frame_with GetAngle.ID (u32_to_le_bytes g.angle)

/-- Decompose a finite f32 bit pattern into a scaled integer `(M, E)` with
value `M * 2^E`: sign/exponent/mantissa fields per IEEE-754 binary32
(subnormals have `E = -149`, normals `E = e - 150` with implicit leading bit).
Infinities and NaNs (exponent field 255) are outside this model. -/
def f32_toScaled (b : Nat) : Int × Int :=
  let s : Nat := b / 2 ^ 31
  let e : Nat := b / 2 ^ 23 % 2 ^ 8
  let m : Nat := b % 2 ^ 23
  let M : Int := if e = 0 then (m : Int) else ((2 ^ 23 + m : Nat) : Int)
  let E : Int := if e = 0 then -149 else (e : Int) - 150
  (if s = 1 then -M else M, E)

/-- Divide with round-half-to-even (banker's rounding), the IEEE-754 default
rounding attribute. -/
def roundEvenDiv (a d : Nat) : Nat :=
  let q := a / d
  let r := a % d
  if 2 * r < d then q
  else if d < 2 * r then q + 1
  else if q % 2 = 0 then q else q + 1

/-- Scale a natural number by `2^k` for an integer `k`, rounding half to even
when `k` is negative. -/
def scaleRound (a : Nat) (k : Int) : Nat :=
  if 0 ≤ k then a * 2 ^ k.toNat else roundEvenDiv a (2 ^ (-k).toNat)

/-- Floor of the base-2 logarithm, by fuel-bounded binary descent (exact for
arguments below `2^fuel`; every value arising from binary32 multiplication or
addition is far below `2^1024`). Structural recursion on the fuel keeps kernel
reduction feasible. -/
def log2floor : Nat → Nat → Nat
  | 0, _ => 0
  | fuel + 1, a => if a < 2 then 0 else log2floor fuel (a / 2) + 1

/-- Round the exact value `M * 2^E` to the nearest IEEE-754 binary32
(round-to-nearest, ties-to-even), returning the result's bit pattern;
overflow rounds to infinity. -/
def roundScaled (M E : Int) : Nat :=
  if M = 0 then 0
  else
    let s : Nat := if M < 0 then 1 else 0
    let A : Nat := M.natAbs
    let ex0 : Int := (log2floor 1024 A : Int) + E
    if ex0 < -126 then
      s * 2 ^ 31 + scaleRound A (E + 149)
    else
      let m0 := scaleRound A (E - (ex0 - 23))
      let ex := if m0 = 2 ^ 24 then ex0 + 1 else ex0
      let m := if m0 = 2 ^ 24 then 2 ^ 23 else m0
      if 127 < ex then s * 2 ^ 31 + 0x7F800000
      else s * 2 ^ 31 + (ex + 127).toNat * 2 ^ 23 + (m - 2 ^ 23)

/-- IEEE-754 binary32 multiplication on bit patterns of finite floats: the
exact product of the scaled values, rounded to nearest (ties to even). -/
def f32_mul (a b : Nat) : Nat :=
  let p := f32_toScaled a
  let q := f32_toScaled b
  roundScaled (p.1 * q.1) (p.2 + q.2)

/-- IEEE-754 binary32 addition on bit patterns of finite floats: the exact
sum of the scaled values, rounded to nearest (ties to even). -/
def f32_add (a b : Nat) : Nat :=
  let p := f32_toScaled a
  let q := f32_toScaled b
  let E := min p.2 q.2
  roundScaled (p.1 * 2 ^ (p.2 - E).toNat + q.1 * 2 ^ (q.2 - E).toNat) E

/-- Comparison `a <= b` on finite f32 bit patterns (Rust `f32: PartialOrd`),
decided on the exact scaled values. -/
def f32_le (a b : Nat) : Bool :=
  let p := f32_toScaled a
  let q := f32_toScaled b
  let E := min p.2 q.2
  decide (p.1 * 2 ^ (p.2 - E).toNat ≤ q.1 * 2 ^ (q.2 - E).toNat)

/-- Comparison `a < b` on finite f32 bit patterns (Rust `f32: PartialOrd`),
decided on the exact scaled values. -/
def f32_lt (a b : Nat) : Bool :=
  let p := f32_toScaled a
  let q := f32_toScaled b
  let E := min p.2 q.2
  decide (p.1 * 2 ^ (p.2 - E).toNat < q.1 * 2 ^ (q.2 - E).toNat)

/-- Bit pattern of the f32 literal `2.62` in `GetAngle::ackermann_angle`. -/
def coeff_2_62 : Nat := 0x4027AE14

/-- Bit pattern of the f32 literal `-0.832` in `GetAngle::ackermann_angle`. -/
def coeff_neg_0_832 : Nat := 0xBF54FDF4

/-- `GetAngle::ackermann_angle`: `self.angle * 2.62 + -0.832` in f32
arithmetic, on bit patterns. -/
def GetAngle.ackermann_angle (g : GetAngle) : Nat :=
  f32_add (f32_mul g.angle coeff_2_62) coeff_neg_0_832

/-- Message struct `SetSpeed` with its `percent: u8` field. -/
structure SetSpeed where
  percent : Nat
  deriving DecidableEq, Repr

/-- `SetSpeed::ID`. -/
def SetSpeed.ID : Nat := 0x0000006

/-- `SetSpeed::into_frame`: 1-byte payload `[self.percent]`. -/
def SetSpeed.into_frame (s : SetSpeed) : RResult RawFrame :=
  IscFrame.frame_with SetSpeed.ID [s.percent]

/-- Message struct `EncoderCount` with `count: u16` and `velocity: f32`
(modelled by its 32-bit bit pattern). -/
structure EncoderCount where
  count : Nat
  velocity : Nat
  deriving DecidableEq, Repr

/-- `EncoderCount::ID`. -/
def EncoderCount.ID : Nat := 0x0000007

/-- `EncoderCount::into_frame`: payload is `count.to_le_bytes()` concatenated
with `velocity.to_le_bytes()` (2 + 4 = 6 bytes, via `concat_arrays!`). -/
def EncoderCount.into_frame (e : EncoderCount) : RResult RawFrame :=
  IscFrame.frame_with EncoderCount.ID
    (u16_to_le_bytes e.count ++ u32_to_le_bytes e.velocity)

/-- Message struct `TrainingMode` (no fields). -/
structure TrainingMode where
  deriving DecidableEq, Repr

/-- `TrainingMode::ID`. -/
def TrainingMode.ID : Nat := 0x0000008

/-- `TrainingMode` uses the trait's default `into_frame` (empty payload). -/
def TrainingMode.into_frame (_ : TrainingMode) : RResult RawFrame :=
  IscFrame.default_into_frame TrainingMode.ID

/-- The `CanMessage` enum: all messages used in Phoenix. -/
inductive CanMessage where
  | AutonDisable : AutonDisable → CanMessage
  | SetBrake : SetBrake → CanMessage
  | LockBrake : LockBrake → CanMessage
  | UnlockBrake : UnlockBrake → CanMessage
  | SetAngle : SetAngle → CanMessage
  | GetAngle : GetAngle → CanMessage
  | SetSpeed : SetSpeed → CanMessage
  | EncoderCount : EncoderCount → CanMessage
  | TrainingMode : TrainingMode → CanMessage
  deriving DecidableEq, Repr

/-- `CanMessage::from_frame`, translated branch by branch, in the source's
match order. Rust slice indexing out of bounds is a panic; the `try_into`
length check (which maps its error to `InvalidFrame`) is kept as written even
though any slice that survived range indexing already has the right length. -/
def CanMessage.from_frame (f : RawFrame) : RResult CanMessage :=
  match f.id with
  | .Extended raw =>
    if raw = AutonDisable.ID then .ok (.AutonDisable {})
    else if raw = SetBrake.ID then
      match sliceIndex f.data 0 with
      | none => .panicked
      | some b => .ok (.SetBrake ⟨b⟩)
    else if raw = LockBrake.ID then .ok (.LockBrake {})
    else if raw = UnlockBrake.ID then .ok (.UnlockBrake {})
    else if raw = SetAngle.ID then
      match sliceRange f.data 0 4 with
      | none => .panicked
      | some s =>
        match f32_from_le_slice s with
        | none => .invalidFrame
        | some bits => .ok (.SetAngle ⟨bits⟩)
    else if raw = GetAngle.ID then
      match sliceRange f.data 0 4 with
      | none => .panicked
      | some s =>
        match f32_from_le_slice s with
        | none => .invalidFrame
        | some bits => .ok (.GetAngle ⟨bits⟩)
    else if raw = SetSpeed.ID then
      match sliceIndex f.data 0 with
      | none => .panicked
      | some b => .ok (.SetSpeed ⟨b⟩)
    else if raw = EncoderCount.ID then
      match sliceRange f.data 0 2 with
      | none => .panicked
      | some s1 =>
        match u16_from_le_slice s1 with
        | none => .invalidFrame
        | some c =>
          match sliceRange f.data 2 6 with
          | none => .panicked
          | some s2 =>
            match f32_from_le_slice s2 with
            | none => .invalidFrame
            | some v => .ok (.EncoderCount ⟨c, v⟩)
    else if raw = TrainingMode.ID then .ok (.TrainingMode {})
    else .invalidFrame
  | .Standard _ => .invalidFrame

/-- Dispatcher over the per-variant `into_frame` implementations (the source
calls the matching variant's `into_frame` directly; this merely aggregates
them so theorems can quantify over all variants). -/
def CanMessage.into_frame : CanMessage → RResult RawFrame
  | .AutonDisable a => a.into_frame
  | .SetBrake s => s.into_frame
  | .LockBrake l => l.into_frame
  | .UnlockBrake u => u.into_frame
  | .SetAngle s => s.into_frame
  | .GetAngle g => g.into_frame
  | .SetSpeed s => s.into_frame
  | .EncoderCount e => e.into_frame
  | .TrainingMode t => t.into_frame

/-- Field validity: each field fits its Rust machine-integer width
(`u8`, `u16`, or an `f32` bit pattern in 32 bits). -/
def CanMessage.Valid : CanMessage → Prop
  | .SetBrake s => s.percent < 2 ^ 8
  | .SetSpeed s => s.percent < 2 ^ 8
  | .SetAngle s => s.angle < 2 ^ 32
  | .GetAngle g => g.angle < 2 ^ 32
  | .EncoderCount e => e.count < 2 ^ 16 ∧ e.velocity < 2 ^ 32
  | _ => True

/-- The fixed catalog identifier of a message variant. -/
def CanMessage.catalog_id : CanMessage → Nat
  | .AutonDisable _ => AutonDisable.ID
  | .SetBrake _ => SetBrake.ID
  | .LockBrake _ => LockBrake.ID
  | .UnlockBrake _ => UnlockBrake.ID
  | .SetAngle _ => SetAngle.ID
  | .GetAngle _ => GetAngle.ID
  | .SetSpeed _ => SetSpeed.ID
  | .EncoderCount _ => EncoderCount.ID
  | .TrainingMode _ => TrainingMode.ID

/-- The payload length of a message variant's wire layout. -/
def CanMessage.layout_len : CanMessage → Nat
  | .AutonDisable _ => 0
  | .SetBrake _ => 1
  | .LockBrake _ => 0
  | .UnlockBrake _ => 0
  | .SetAngle _ => 4
  | .GetAngle _ => 4
  | .SetSpeed _ => 1
  | .EncoderCount _ => 6
  | .TrainingMode _ => 0

/-- Bytes of the payload that the decoder reads for a given raw extended
identifier (0 for identifiers decoded without touching the payload). -/
def id_layout_len (raw : Nat) : Nat :=
  if raw = SetBrake.ID ∨ raw = SetSpeed.ID then 1
  else if raw = SetAngle.ID ∨ raw = GetAngle.ID then 4
  else if raw = EncoderCount.ID then 6
  else 0

/-! ## Helper lemmas -/

/-- Reassembling the four little-endian bytes of a `u32` bit pattern gives the
pattern back when it fits in 32 bits. -/
theorem u32_le_bytes_roundtrip (n : Nat) (h : n < 2 ^ 32) :
    u32_from_le_bytes (n % 2 ^ 8) (n / 2 ^ 8 % 2 ^ 8) (n / 2 ^ 16 % 2 ^ 8)
      (n / 2 ^ 24 % 2 ^ 8) = n := by
  unfold u32_from_le_bytes
  omega

/-- Reassembling the two little-endian bytes of a `u16` gives it back when it
fits in 16 bits. -/
theorem u16_le_bytes_roundtrip (n : Nat) (h : n < 2 ^ 16) :
    u16_from_le_bytes (n % 2 ^ 8) (n / 2 ^ 8 % 2 ^ 8) = n := by
  unfold u16_from_le_bytes
  omega

/-- Rust indexing at position 0 of a non-empty slice yields its head. -/
theorem sliceIndex_cons (b0 : Nat) (rest : List Nat) :
    sliceIndex (b0 :: rest) 0 = some b0 := by
  unfold sliceIndex
  rw [dif_pos (show 0 < (b0 :: rest).length from Nat.zero_lt_succ rest.length)]
  rfl

/-- Range indexing succeeds (does not panic) whenever the range fits the slice. -/
theorem sliceRange_eval (data : List Nat) (lo hi : Nat) (h1 : lo ≤ hi)
    (h2 : hi ≤ data.length) :
    sliceRange data lo hi = some ((data.drop lo).take (hi - lo)) := by
  unfold sliceRange
  rw [if_pos ⟨h1, h2⟩]

/-- Evaluation of the decoder on a `SetBrake` frame with at least one payload byte. -/
theorem from_frame_setbrake_bytes (b0 : Nat) (rest : List Nat) :
    CanMessage.from_frame ⟨.Extended SetBrake.ID, b0 :: rest⟩ =
      .ok (.SetBrake ⟨b0⟩) := by
  unfold CanMessage.from_frame
  simp [sliceIndex_cons, AutonDisable.ID, SetBrake.ID]

/-- Evaluation of the decoder on a `SetSpeed` frame with at least one payload byte. -/
theorem from_frame_setspeed_bytes (b0 : Nat) (rest : List Nat) :
    CanMessage.from_frame ⟨.Extended SetSpeed.ID, b0 :: rest⟩ =
      .ok (.SetSpeed ⟨b0⟩) := by
  unfold CanMessage.from_frame
  simp [sliceIndex_cons, AutonDisable.ID, SetBrake.ID, LockBrake.ID, UnlockBrake.ID,
    SetAngle.ID, GetAngle.ID, SetSpeed.ID]

/-- Evaluation of the decoder on a `SetAngle` frame with at least four payload bytes. -/
theorem from_frame_setangle_bytes (b0 b1 b2 b3 : Nat) (rest : List Nat) :
    CanMessage.from_frame ⟨.Extended SetAngle.ID, b0 :: b1 :: b2 :: b3 :: rest⟩ =
      .ok (.SetAngle ⟨u32_from_le_bytes b0 b1 b2 b3⟩) := by
  unfold CanMessage.from_frame
  rw [show (⟨.Extended SetAngle.ID, b0 :: b1 :: b2 :: b3 :: rest⟩ : RawFrame).data =
        b0 :: b1 :: b2 :: b3 :: rest from rfl]
  rw [sliceRange_eval _ 0 4 (by omega) (by simp)]
  simp [AutonDisable.ID, SetBrake.ID, LockBrake.ID, UnlockBrake.ID, SetAngle.ID,
    f32_from_le_slice]

/-- Evaluation of the decoder on a `GetAngle` frame with at least four payload bytes. -/
theorem from_frame_getangle_bytes (b0 b1 b2 b3 : Nat) (rest : List Nat) :
    CanMessage.from_frame ⟨.Extended GetAngle.ID, b0 :: b1 :: b2 :: b3 :: rest⟩ =
      .ok (.GetAngle ⟨u32_from_le_bytes b0 b1 b2 b3⟩) := by
  unfold CanMessage.from_frame
  rw [show (⟨.Extended GetAngle.ID, b0 :: b1 :: b2 :: b3 :: rest⟩ : RawFrame).data =
        b0 :: b1 :: b2 :: b3 :: rest from rfl]
  rw [sliceRange_eval _ 0 4 (by omega) (by simp)]
  simp [AutonDisable.ID, SetBrake.ID, LockBrake.ID, UnlockBrake.ID, SetAngle.ID,
    GetAngle.ID, f32_from_le_slice]

/-- Evaluation of the decoder on an `EncoderCount` frame with at least six
payload bytes: bytes 0–1 become `count`, bytes 2–5 become `velocity`. -/
theorem from_frame_encoder_bytes (b0 b1 b2 b3 b4 b5 : Nat) (rest : List Nat) :
    CanMessage.from_frame
        ⟨.Extended EncoderCount.ID, b0 :: b1 :: b2 :: b3 :: b4 :: b5 :: rest⟩ =
      .ok (.EncoderCount ⟨u16_from_le_bytes b0 b1, u32_from_le_bytes b2 b3 b4 b5⟩) := by
  unfold CanMessage.from_frame
  rw [show (⟨.Extended EncoderCount.ID,
        b0 :: b1 :: b2 :: b3 :: b4 :: b5 :: rest⟩ : RawFrame).data =
        b0 :: b1 :: b2 :: b3 :: b4 :: b5 :: rest from rfl]
  rw [sliceRange_eval _ 0 2 (by omega) (by simp), sliceRange_eval _ 2 6 (by omega) (by simp)]
  simp [AutonDisable.ID, SetBrake.ID, LockBrake.ID, UnlockBrake.ID, SetAngle.ID,
    GetAngle.ID, SetSpeed.ID, EncoderCount.ID, u16_from_le_slice, f32_from_le_slice]

/-! ## Claim theorems -/

/-- C1: for every message variant and every field assignment within the Rust
field types, decoding the frame produced by encoding yields the identical
message back, bit-for-bit (f32 fields are compared as bit patterns). -/
theorem round_trip_exact (m : CanMessage) (h : m.Valid) :
    ∃ f, m.into_frame = .ok f ∧ CanMessage.from_frame f = .ok m := by
  cases m with
  | AutonDisable a => exact ⟨⟨.Extended AutonDisable.ID, []⟩, rfl, rfl⟩
  | SetBrake s =>
    obtain ⟨p⟩ := s
    exact ⟨⟨.Extended SetBrake.ID, [p]⟩, rfl, from_frame_setbrake_bytes p []⟩
  | LockBrake l => exact ⟨⟨.Extended LockBrake.ID, []⟩, rfl, rfl⟩
  | UnlockBrake u => exact ⟨⟨.Extended UnlockBrake.ID, []⟩, rfl, rfl⟩
  | SetAngle s =>
    obtain ⟨a⟩ := s
    have h32 : a < 2 ^ 32 := h
    refine ⟨⟨.Extended SetAngle.ID, u32_to_le_bytes a⟩, rfl, ?_⟩
    show CanMessage.from_frame ⟨.Extended SetAngle.ID,
      a % 2 ^ 8 :: a / 2 ^ 8 % 2 ^ 8 :: a / 2 ^ 16 % 2 ^ 8 :: a / 2 ^ 24 % 2 ^ 8 :: []⟩ = _
    rw [from_frame_setangle_bytes, u32_le_bytes_roundtrip a h32]
  | GetAngle g =>
    obtain ⟨a⟩ := g
    have h32 : a < 2 ^ 32 := h
    refine ⟨⟨.Extended GetAngle.ID, u32_to_le_bytes a⟩, rfl, ?_⟩
    show CanMessage.from_frame ⟨.Extended GetAngle.ID,
      a % 2 ^ 8 :: a / 2 ^ 8 % 2 ^ 8 :: a / 2 ^ 16 % 2 ^ 8 :: a / 2 ^ 24 % 2 ^ 8 :: []⟩ = _
    rw [from_frame_getangle_bytes, u32_le_bytes_roundtrip a h32]
  | SetSpeed s =>
    obtain ⟨p⟩ := s
    exact ⟨⟨.Extended SetSpeed.ID, [p]⟩, rfl, from_frame_setspeed_bytes p []⟩
  | EncoderCount e =>
    obtain ⟨c, v⟩ := e
    have h2 : c < 2 ^ 16 ∧ v < 2 ^ 32 := h
    refine ⟨⟨.Extended EncoderCount.ID, u16_to_le_bytes c ++ u32_to_le_bytes v⟩, rfl, ?_⟩
    show CanMessage.from_frame ⟨.Extended EncoderCount.ID,
      c % 2 ^ 8 :: c / 2 ^ 8 % 2 ^ 8 ::
        v % 2 ^ 8 :: v / 2 ^ 8 % 2 ^ 8 :: v / 2 ^ 16 % 2 ^ 8 :: v / 2 ^ 24 % 2 ^ 8 :: []⟩ = _
    rw [from_frame_encoder_bytes, u16_le_bytes_roundtrip c h2.1, u32_le_bytes_roundtrip v h2.2]
  | TrainingMode t => exact ⟨⟨.Extended TrainingMode.ID, []⟩, rfl, rfl⟩

/-- Witness for C1 at the concrete message `EncoderCount { count: 20,
velocity: 10.2 }` (bit pattern `0x41233333`). -/
theorem round_trip_exact_witness :
    (CanMessage.EncoderCount ⟨20, 0x41233333⟩).Valid ∧
    ∃ f, (CanMessage.EncoderCount ⟨20, 0x41233333⟩).into_frame = .ok f ∧
      CanMessage.from_frame f = .ok (.EncoderCount ⟨20, 0x41233333⟩) :=
  ⟨⟨by decide, by decide⟩, round_trip_exact _ ⟨by decide, by decide⟩⟩

/-- C2 (failing-input evidence): on frames whose payload is shorter than the
matched variant's layout, `from_frame` panics (Rust slice range / index out of
bounds) instead of returning `InvalidFrame`: shown at `SetAngle` with an empty
payload, `GetAngle` with 3 bytes, `EncoderCount` with 5 bytes, and `SetBrake`
and `SetSpeed` with empty payloads. -/
theorem truncated_payload_panics :
    CanMessage.from_frame ⟨.Extended SetAngle.ID, []⟩ = .panicked ∧
    CanMessage.from_frame ⟨.Extended GetAngle.ID, [1, 2, 3]⟩ = .panicked ∧
    CanMessage.from_frame ⟨.Extended EncoderCount.ID, [1, 2, 3, 4, 5]⟩ = .panicked ∧
    CanMessage.from_frame ⟨.Extended SetBrake.ID, []⟩ = .panicked ∧
    CanMessage.from_frame ⟨.Extended SetSpeed.ID, []⟩ = .panicked := by
  refine ⟨?_, ?_, ?_, ?_, ?_⟩ <;> decide

/-- C3: every encoded frame carries the variant's fixed catalog identifier as
an extended identifier, and its payload length is exactly the layout length. -/
theorem encode_id_and_layout_length (m : CanMessage) :
    ∃ f, m.into_frame = .ok f ∧
      f.id = .Extended m.catalog_id ∧ f.data.length = m.layout_len := by
  cases m with
  | AutonDisable a => exact ⟨⟨.Extended AutonDisable.ID, []⟩, rfl, rfl, rfl⟩
  | SetBrake s => exact ⟨⟨.Extended SetBrake.ID, [s.percent]⟩, rfl, rfl, rfl⟩
  | LockBrake l => exact ⟨⟨.Extended LockBrake.ID, []⟩, rfl, rfl, rfl⟩
  | UnlockBrake u => exact ⟨⟨.Extended UnlockBrake.ID, []⟩, rfl, rfl, rfl⟩
  | SetAngle s => exact ⟨⟨.Extended SetAngle.ID, u32_to_le_bytes s.angle⟩, rfl, rfl, rfl⟩
  | GetAngle g => exact ⟨⟨.Extended GetAngle.ID, u32_to_le_bytes g.angle⟩, rfl, rfl, rfl⟩
  | SetSpeed s => exact ⟨⟨.Extended SetSpeed.ID, [s.percent]⟩, rfl, rfl, rfl⟩
  | EncoderCount e =>
    exact ⟨⟨.Extended EncoderCount.ID, u16_to_le_bytes e.count ++ u32_to_le_bytes e.velocity⟩,
      rfl, rfl, rfl⟩
  | TrainingMode t => exact ⟨⟨.Extended TrainingMode.ID, []⟩, rfl, rfl, rfl⟩

/-- C4: `EncoderCount` serializes `count` as a little-endian u16 at bytes 0–1
and `velocity` as a little-endian f32 at bytes 2–5; at the concrete value
`{count: 20, velocity: 10.2}` (bit pattern `0x41233333`) the frame has
extended id `0x7` and 6-byte payload `[0x14, 0x00, 0x33, 0x33, 0x23, 0x41]`,
and decoding recovers both fields exactly. -/
theorem encoder_count_wire_layout :
    (∀ c v : Nat, (EncoderCount.mk c v).into_frame =
      .ok ⟨.Extended EncoderCount.ID, u16_to_le_bytes c ++ u32_to_le_bytes v⟩) ∧
    (EncoderCount.mk 20 0x41233333).into_frame =
      .ok ⟨.Extended 0x7, [0x14, 0x00, 0x33, 0x33, 0x23, 0x41]⟩ ∧
    CanMessage.from_frame ⟨.Extended 0x7, [0x14, 0x00, 0x33, 0x33, 0x23, 0x41]⟩ =
      .ok (.EncoderCount ⟨20, 0x41233333⟩) :=
  ⟨fun _ _ => rfl, by decide, by decide⟩

/-- C5: an extended frame whose raw identifier is not one of the nine catalog
values 0–8 always decodes to `InvalidFrame`, for any payload. -/
theorem unknown_extended_id_rejected (raw : Nat) (data : List Nat)
    (h : raw ∉ ([0, 1, 2, 3, 4, 5, 6, 7, 8] : List Nat)) :
    CanMessage.from_frame ⟨.Extended raw, data⟩ = .invalidFrame := by
  simp only [List.mem_cons, List.not_mem_nil, or_false, not_or] at h
  obtain ⟨h0, h1, h2, h3, h4, h5, h6, h7, h8⟩ := h
  unfold CanMessage.from_frame
  simp [AutonDisable.ID, SetBrake.ID, LockBrake.ID, UnlockBrake.ID, SetAngle.ID,
    GetAngle.ID, SetSpeed.ID, EncoderCount.ID, TrainingMode.ID,
    h0, h1, h2, h3, h4, h5, h6, h7, h8]

/-- Witness for C5 at the unused identifier `0x9` with a non-empty payload. -/
theorem unknown_extended_id_rejected_witness :
    (9 : Nat) ∉ ([0, 1, 2, 3, 4, 5, 6, 7, 8] : List Nat) ∧
    CanMessage.from_frame ⟨.Extended 9, [1, 2, 3]⟩ = .invalidFrame :=
  ⟨by decide, unknown_extended_id_rejected 9 [1, 2, 3] (by decide)⟩

/-- C6: a frame with a standard (11-bit) identifier always decodes to
`InvalidFrame`, for any raw identifier value and any payload. -/
theorem standard_id_always_rejected (raw : Nat) (data : List Nat) :
    CanMessage.from_frame ⟨.Standard raw, data⟩ = .invalidFrame := rfl

/-- C7: when the extended identifier is in the catalog and the payload is at
least as long as that variant's layout, decoding succeeds and gives the same
message as decoding just the first layout-length bytes: trailing bytes are
ignored. -/
theorem trailing_bytes_ignored (raw : Nat) (data : List Nat)
    (hmem : raw ∈ ([0, 1, 2, 3, 4, 5, 6, 7, 8] : List Nat))
    (hlen : id_layout_len raw ≤ data.length) :
    ∃ m, CanMessage.from_frame ⟨.Extended raw, data⟩ = .ok m ∧
      CanMessage.from_frame ⟨.Extended raw, data.take (id_layout_len raw)⟩ = .ok m := by
  simp only [List.mem_cons, List.not_mem_nil, or_false] at hmem
  rcases hmem with rfl | rfl | rfl | rfl | rfl | rfl | rfl | rfl | rfl
  · exact ⟨.AutonDisable {}, rfl, rfl⟩
  · rcases data with _ | ⟨b0, rest⟩
    · simp [id_layout_len, SetBrake.ID, SetSpeed.ID, SetAngle.ID, GetAngle.ID, EncoderCount.ID] at hlen
    · exact ⟨.SetBrake ⟨b0⟩, from_frame_setbrake_bytes b0 rest, from_frame_setbrake_bytes b0 []⟩
  · exact ⟨.LockBrake {}, rfl, rfl⟩
  · exact ⟨.UnlockBrake {}, rfl, rfl⟩
  · rcases data with _ | ⟨b0, data⟩
    · simp [id_layout_len, SetBrake.ID, SetSpeed.ID, SetAngle.ID, GetAngle.ID, EncoderCount.ID] at hlen
    rcases data with _ | ⟨b1, data⟩
    · simp [id_layout_len, SetBrake.ID, SetSpeed.ID, SetAngle.ID, GetAngle.ID, EncoderCount.ID] at hlen
    rcases data with _ | ⟨b2, data⟩
    · simp [id_layout_len, SetBrake.ID, SetSpeed.ID, SetAngle.ID, GetAngle.ID, EncoderCount.ID] at hlen
    rcases data with _ | ⟨b3, rest⟩
    · simp [id_layout_len, SetBrake.ID, SetSpeed.ID, SetAngle.ID, GetAngle.ID, EncoderCount.ID] at hlen
    exact ⟨.SetAngle ⟨u32_from_le_bytes b0 b1 b2 b3⟩,
      from_frame_setangle_bytes b0 b1 b2 b3 rest, from_frame_setangle_bytes b0 b1 b2 b3 []⟩
  · rcases data with _ | ⟨b0, data⟩
    · simp [id_layout_len, SetBrake.ID, SetSpeed.ID, SetAngle.ID, GetAngle.ID, EncoderCount.ID] at hlen
    rcases data with _ | ⟨b1, data⟩
    · simp [id_layout_len, SetBrake.ID, SetSpeed.ID, SetAngle.ID, GetAngle.ID, EncoderCount.ID] at hlen
    rcases data with _ | ⟨b2, data⟩
    · simp [id_layout_len, SetBrake.ID, SetSpeed.ID, SetAngle.ID, GetAngle.ID, EncoderCount.ID] at hlen
    rcases data with _ | ⟨b3, rest⟩
    · simp [id_layout_len, SetBrake.ID, SetSpeed.ID, SetAngle.ID, GetAngle.ID, EncoderCount.ID] at hlen
    exact ⟨.GetAngle ⟨u32_from_le_bytes b0 b1 b2 b3⟩,
      from_frame_getangle_bytes b0 b1 b2 b3 rest, from_frame_getangle_bytes b0 b1 b2 b3 []⟩
  · rcases data with _ | ⟨b0, rest⟩
    · simp [id_layout_len, SetBrake.ID, SetSpeed.ID, SetAngle.ID, GetAngle.ID, EncoderCount.ID] at hlen
    · exact ⟨.SetSpeed ⟨b0⟩, from_frame_setspeed_bytes b0 rest, from_frame_setspeed_bytes b0 []⟩
  · rcases data with _ | ⟨b0, data⟩
    · simp [id_layout_len, SetBrake.ID, SetSpeed.ID, SetAngle.ID, GetAngle.ID, EncoderCount.ID] at hlen
    rcases data with _ | ⟨b1, data⟩
    · simp [id_layout_len, SetBrake.ID, SetSpeed.ID, SetAngle.ID, GetAngle.ID, EncoderCount.ID] at hlen
    rcases data with _ | ⟨b2, data⟩
    · simp [id_layout_len, SetBrake.ID, SetSpeed.ID, SetAngle.ID, GetAngle.ID, EncoderCount.ID] at hlen
    rcases data with _ | ⟨b3, data⟩
    · simp [id_layout_len, SetBrake.ID, SetSpeed.ID, SetAngle.ID, GetAngle.ID, EncoderCount.ID] at hlen
    rcases data with _ | ⟨b4, data⟩
    · simp [id_layout_len, SetBrake.ID, SetSpeed.ID, SetAngle.ID, GetAngle.ID, EncoderCount.ID] at hlen
    rcases data with _ | ⟨b5, rest⟩
    · simp [id_layout_len, SetBrake.ID, SetSpeed.ID, SetAngle.ID, GetAngle.ID, EncoderCount.ID] at hlen
    exact ⟨.EncoderCount ⟨u16_from_le_bytes b0 b1, u32_from_le_bytes b2 b3 b4 b5⟩,
      from_frame_encoder_bytes b0 b1 b2 b3 b4 b5 rest,
      from_frame_encoder_bytes b0 b1 b2 b3 b4 b5 []⟩
  · exact ⟨.TrainingMode {}, rfl, rfl⟩

/-- Witness for C7 at identifier `0x5` (`GetAngle`) with a 5-byte payload:
one byte beyond the 4-byte layout. -/
theorem trailing_bytes_ignored_witness :
    (5 : Nat) ∈ ([0, 1, 2, 3, 4, 5, 6, 7, 8] : List Nat) ∧
    id_layout_len 5 ≤ ([0, 0, 32, 65, 99] : List Nat).length ∧
    ∃ m, CanMessage.from_frame ⟨.Extended 5, [0, 0, 32, 65, 99]⟩ = .ok m ∧
      CanMessage.from_frame
        ⟨.Extended 5, ([0, 0, 32, 65, 99] : List Nat).take (id_layout_len 5)⟩ = .ok m :=
  ⟨by decide, by decide, trailing_bytes_ignored 5 [0, 0, 32, 65, 99] (by decide) (by decide)⟩

/-- C8: `ackermann_angle` is exactly the f32 evaluation of
`angle * 2.62 + -0.832`; at `angle = 4.818` (bit pattern `0x409A2D0E`) the
result is the f32 with bit pattern `0x413CA897` (≈ 11.791), which lies in the
half-open interval `[10.0, 12.0)` under f32 ordering. -/
theorem ackermann_angle_eval :
    (∀ g : GetAngle,
      g.ackermann_angle = f32_add (f32_mul g.angle coeff_2_62) coeff_neg_0_832) ∧
    GetAngle.ackermann_angle ⟨0x409A2D0E⟩ = 0x413CA897 ∧
    f32_le 0x41200000 (GetAngle.ackermann_angle ⟨0x409A2D0E⟩) = true ∧
    f32_lt (GetAngle.ackermann_angle ⟨0x409A2D0E⟩) 0x41400000 = true :=
  ⟨fun _ => rfl, by decide, by decide, by decide⟩

/-- C9: `ExtendedId::new` succeeds on every catalog identifier (all nine are
within the 29-bit range), so no `into_frame` implementation can reach the
`unwrap` panic. -/
theorem id_construction_never_panics :
    (∀ m : CanMessage, ExtendedId.new m.catalog_id = some m.catalog_id) ∧
    ∀ m : CanMessage, m.into_frame ≠ .panicked := by
  constructor
  · intro m; cases m <;> rfl
  · intro m hm
    cases m <;>
      simp [CanMessage.into_frame, AutonDisable.into_frame, SetBrake.into_frame,
        LockBrake.into_frame, UnlockBrake.into_frame, SetAngle.into_frame,
        GetAngle.into_frame, SetSpeed.into_frame, EncoderCount.into_frame,
        TrainingMode.into_frame, IscFrame.frame_with, IscFrame.default_into_frame,
        ExtendedId.new, ExtendedId.MAX_RAW, Frame.new, u16_to_le_bytes, u32_to_le_bytes,
        AutonDisable.ID, SetBrake.ID, LockBrake.ID, UnlockBrake.ID, SetAngle.ID,
        GetAngle.ID, SetSpeed.ID, EncoderCount.ID, TrainingMode.ID] at hm

/-- C10: the four empty-layout identifiers (`AutonDisable` 0x0, `LockBrake`
0x2, `UnlockBrake` 0x3, `TrainingMode` 0x8) decode successfully to their unit
variants for every payload of length at most 8, without inspecting a single
payload byte. -/
theorem empty_layout_ids_accept_any_payload (data : List Nat)
    (_h : data.length ≤ 8) :
    CanMessage.from_frame ⟨.Extended AutonDisable.ID, data⟩ = .ok (.AutonDisable {}) ∧
    CanMessage.from_frame ⟨.Extended LockBrake.ID, data⟩ = .ok (.LockBrake {}) ∧
    CanMessage.from_frame ⟨.Extended UnlockBrake.ID, data⟩ = .ok (.UnlockBrake {}) ∧
    CanMessage.from_frame ⟨.Extended TrainingMode.ID, data⟩ = .ok (.TrainingMode {}) :=
  ⟨rfl, rfl, rfl, rfl⟩

/-- Witness for C10 at a full 8-byte payload. -/
theorem empty_layout_ids_accept_any_payload_witness :
    ([1, 2, 3, 4, 5, 6, 7, 8] : List Nat).length ≤ 8 ∧
    CanMessage.from_frame ⟨.Extended AutonDisable.ID, [1, 2, 3, 4, 5, 6, 7, 8]⟩ =
      .ok (.AutonDisable {}) :=
  ⟨by decide, (empty_layout_ids_accept_any_payload [1, 2, 3, 4, 5, 6, 7, 8] (by decide)).1⟩

end PhnxCandefs
